import Mathlib

/-!
Verification of the inventory-bot analytics engine (`src/app.py`).

The Python source is shallowly embedded: machine floats become `ℚ`,
Python ints become `ℤ`/`ℕ`, Python's insertion-ordered dicts become
association lists, and code that can raise (`ZeroDivisionError` from `/`,
`ValueError` from `datetime.strptime`) returns `Option`/`Except`.
-/

deriving instance DecidableEq for Except

namespace InventoryBot

/-! ### String utilities

`pyLower` models Python's `str.lower()` (the keywords and queries involved
are ASCII).  `strContains hay sub` models Python's substring test
`sub in hay`. -/

def pyLower (s : String) : String := ⟨s.data.map Char.toLower⟩

def startsWith : List Char → List Char → Bool
  | [], _ => true
  | _ :: _, [] => false
  | a :: as, b :: bs => a == b && startsWith as bs

def containsSub (needle : List Char) : List Char → Bool
  | [] => needle.isEmpty
  | c :: t => startsWith needle (c :: t) || containsSub needle t

def strContains (hay sub : String) : Bool := containsSub sub.data hay.data

/-! ### Dates

Models `datetime.date` values and `datetime.strptime(s, "%Y-%m-%d").date()`:
the parse fails (Python raises `ValueError`) unless the string is three
dash-separated decimal fields forming a valid calendar date. -/

structure Date where
  y : Nat
  m : Nat
  d : Nat
deriving DecidableEq

/-- Calendar order on dates, as Python's `date.__le__`. -/
def Date.le (a b : Date) : Bool :=
  a.y < b.y || (a.y == b.y && (a.m < b.m || (a.m == b.m && a.d ≤ b.d)))

def isLeapYear (y : Nat) : Bool :=
  (y % 4 == 0 && y % 100 != 0) || (y % 400 == 0)

def daysInMonth (y m : Nat) : Nat :=
  if m = 2 then (if isLeapYear y then 29 else 28)
  else if m = 4 ∨ m = 6 ∨ m = 9 ∨ m = 11 then 30
  else 31

/-- Split a character list at every `'-'`, as `str.split('-')` /
`String.splitOn "-"` does. -/
def splitDash : List Char → List (List Char)
  | [] => [[]]
  | c :: t =>
    if c = '-' then [] :: splitDash t
    else
      match splitDash t with
      | [] => [[c]]
      | g :: gs => (c :: g) :: gs

/-- The numeric value of a nonempty all-digit field; `none` otherwise. -/
def digitsVal (acc : Nat) : List Char → Option Nat
  | [] => some acc
  | c :: t => if c.isDigit then digitsVal (acc * 10 + (c.toNat - 48)) t else none

def parseNatDigits : List Char → Option Nat
  | [] => none
  | c :: t => digitsVal 0 (c :: t)

def parseDate (s : String) : Option Date :=
  match splitDash s.data with
  | [ys, ms, ds] =>
    match parseNatDigits ys, parseNatDigits ms, parseNatDigits ds with
    | some y, some m, some d =>
      if 1 ≤ m ∧ m ≤ 12 ∧ 1 ≤ d ∧ d ≤ daysInMonth y m then some ⟨y, m, d⟩ else none
    | _, _, _ => none
  | _ => none

/-- Python's `int()` applied to a float value: truncation toward zero. -/
def pyInt (x : ℚ) : ℤ := if 0 ≤ x then ⌊x⌋ else ⌈x⌉

/-! ### Records

Typed forms of the raw dict records the engine consumes, with the field
names of the source (`ws_*`). -/

structure ProductRec where
  ws_item_id : String
  ws_item_name : String
  ws_stock : ℤ
  ws_unit_price : ℚ
  ws_cost_price : ℚ
  ws_min_stock : ℤ
deriving DecidableEq

structure OrderRec where
  ws_item_id : String
  ws_item_name : String
  ws_quantity : ℤ
  ws_unit_price : ℚ
deriving DecidableEq

structure CouponRec where
  ws_coupon_code : String
  ws_start_date : String
  ws_end_date : String
  ws_offer_percent : ℚ
  ws_campaigns_name : String
deriving DecidableEq

/-! ### Query Router (`process_query`, lines 622-649)

Only the dispatch decision is modelled; each branch's report generation is
presentation-layer. -/

inductive Route where
  | reorder
  | investment
  | generic
deriving DecidableEq

def reorderKeywords : List String :=
  ["reorder", "stock", "inventory", "level", "minimum", "refill", "replenish"]

def investmentKeywords : List String :=
  ["invest", "buy", "purchase", "recommend", "best product"]

def processQueryRoute (q : String) : Route :=
  if reorderKeywords.any (fun k => strContains (pyLower q) k) then .reorder
  else if investmentKeywords.any (fun k => strContains (pyLower q) k) then .investment
  else .generic

/-! ### Sales Aggregator (`_analyze_sales_trends`, lines 272-308)

`product_sales` is a Python dict keyed by product id, preserving insertion
order; it is embedded as an association list.  `salesUpd` is the loop body:
if the key is absent a fresh `{quantity: 0, revenue: 0, product_name}` entry
is appended, then quantity and `quantity * price` are added. -/

structure Summary where
  quantity : ℤ
  revenue : ℚ
  productName : String
deriving DecidableEq

def salesUpd (pid nm : String) (q : ℤ) (r : ℚ) :
    List (String × Summary) → List (String × Summary)
  | [] => [(pid, ⟨q, r, nm⟩)]
  | (k, s) :: t =>
    if k = pid then (k, ⟨s.quantity + q, s.revenue + r, s.productName⟩) :: t
    else (k, s) :: salesUpd pid nm q r t

def productSales (orders : List OrderRec) : List (String × Summary) :=
  orders.foldl
    (fun m o => salesUpd o.ws_item_id o.ws_item_name o.ws_quantity
      ((o.ws_quantity : ℚ) * o.ws_unit_price) m) []

/-- `sales_data['product_sales'].get(product_id, {'quantity': 0, 'revenue': 0})`:
lookup of the (unique) entry for a key, defaulting to a zero summary. -/
def getSummary : List (String × Summary) → String → Summary
  | [], _ => ⟨0, 0, ""⟩
  | (k, s) :: t, pid => if k = pid then s else getSummary t pid

/-! ### Investment Scorer, Variant A (`_calculate_investment_score`, lines 176-204)

Each sub-score is one line of the source.  The two unguarded float
divisions (`margin` when `unit_price == 0`, `efficiency` when
`ideal_stock == 0`) raise `ZeroDivisionError` in Python; the embedding
returns `none` exactly at those points, in the source's evaluation order
(margin is computed before efficiency). -/

def velocityScore (q : ℤ) : ℚ := min ((q : ℚ) / 30 * 10) 30

def marginScore (unitPrice costPrice : ℚ) : ℚ :=
  min ((unitPrice - costPrice) / unitPrice * 100) 25

def efficiencyScore (stockLevel idealStock : ℚ) : ℚ :=
  max 0 (25 * (1 - |stockLevel - idealStock| / idealStock))

def revenueScore (rev totalRevenue : ℚ) : ℚ :=
  min ((if 0 < totalRevenue then rev / totalRevenue * 100 else 0) * 2) 20

def calcInvestmentScore (p : ProductRec) (sales : List (String × Summary)) : Option ℚ :=
  if p.ws_unit_price = 0 then none
  else if ((getSummary sales p.ws_item_id).quantity : ℚ) / 30 * 14 = 0 then none
  else some (velocityScore (getSummary sales p.ws_item_id).quantity
    + marginScore p.ws_unit_price p.ws_cost_price
    + efficiencyScore (p.ws_stock : ℚ)
        (((getSummary sales p.ws_item_id).quantity : ℚ) / 30 * 14)
    + revenueScore (getSummary sales p.ws_item_id).revenue
        ((sales.map (fun e => e.2.revenue)).sum))

/-! ### Investment Scorer, Variant B (`_analyze_product_potential`, lines 426-480)

Only the numeric total score is embedded.  `stock_efficiency` and
`revenue_contribution` guard their divisors with `max(_, 1)`; the
`profit_margin` division by `unit_price` is unguarded and raises when
`unit_price == 0` (hence `none`). -/

def productPotentialScore (p : ProductRec) (sales : List (String × Summary)) : Option ℚ :=
  if p.ws_unit_price = 0 then none
  else some
    ((if 0 < (getSummary sales p.ws_item_id).quantity
        then ((getSummary sales p.ws_item_id).quantity : ℚ) / 30 else 0) * (35 / 100)
    + ((p.ws_unit_price - p.ws_cost_price) / p.ws_unit_price * 100) * (25 / 100)
    + (min ((p.ws_stock : ℚ) / ((max (getSummary sales p.ws_item_id).quantity 1 : ℤ) : ℚ)) 1)
        * (20 / 100)
    + ((getSummary sales p.ws_item_id).revenue
        / (max ((sales.map (fun e => e.2.revenue)).sum) 1) * 100) * (20 / 100))

/-! ### Reorder Planner (`_check_reorder_levels`, lines 516-577) -/

inductive Urgency where
  | urgent
  | soon
deriving DecidableEq

/-- `avg_daily_sales = sales_quantity / 30 if sales_quantity > 0 else 0`. -/
def avgDailySales (sales : List (String × Summary)) (pid : String) : ℚ :=
  if 0 < (getSummary sales pid).quantity
  then ((getSummary sales pid).quantity : ℚ) / 30 else 0

/-- `reorder_quantity = int((avg_daily_sales * lead_time_days) + safety_stock - current_stock)`
with `lead_time_days = 7` and `safety_stock = min_stock * 0.5`. -/
def reorderQuantityRaw (p : ProductRec) (sales : List (String × Summary)) : ℤ :=
  pyInt (avgDailySales sales p.ws_item_id * 7
    + (p.ws_min_stock : ℚ) * (1 / 2) - (p.ws_stock : ℚ))

/-- The urgency tag and clamped `reorder_quantity` attached to a product:
`none` when the product lands in neither `urgent_reorder` nor
`approaching_reorder`. -/
def reorderForProduct (p : ProductRec) (sales : List (String × Summary)) :
    Option (Urgency × ℤ) :=
  if p.ws_stock ≤ p.ws_min_stock then
    some (.urgent, max (reorderQuantityRaw p sales) p.ws_min_stock)
  else if (p.ws_stock : ℚ) ≤ (p.ws_min_stock : ℚ) * (3 / 2) then
    some (.soon, max (reorderQuantityRaw p sales) 0)
  else none

/-! ### Coupon Classifier (`_analyze_coupon_effectiveness`, lines 310-344)

`datetime.strptime` raising `ValueError` on a malformed date string is the
`.error .invalidDate` branch; the whole analysis aborts there, as in the
source.  A `CouponInfo` keeps the parsed dates (the source re-renders them
with `strftime('%Y-%m-%d')`, which is injective on parsed dates). -/

inductive DateError where
  | invalidDate
deriving DecidableEq

structure CouponInfo where
  code : String
  discount : ℚ
  campaign : String
  startDate : Date
  endDate : Date
deriving DecidableEq

structure CouponAnalysis where
  active_coupons : List CouponInfo
  expired_coupons : List CouponInfo
  high_value_coupons : List CouponInfo
deriving DecidableEq

def analyzeCoupons (current : Date) : List CouponRec → Except DateError CouponAnalysis
  | [] => .ok ⟨[], [], []⟩
  | c :: cs =>
    match parseDate c.ws_start_date, parseDate c.ws_end_date with
    | some sd, some ed =>
      match analyzeCoupons current cs with
      | .error e => .error e
      | .ok r =>
        .ok ⟨(if Date.le current ed
                then (⟨c.ws_coupon_code, c.ws_offer_percent, c.ws_campaigns_name, sd, ed⟩
                  : CouponInfo) :: r.active_coupons
                else r.active_coupons),
             (if Date.le current ed then r.expired_coupons
                else (⟨c.ws_coupon_code, c.ws_offer_percent, c.ws_campaigns_name, sd, ed⟩
                  : CouponInfo) :: r.expired_coupons),
             (if 20 < c.ws_offer_percent
                then (⟨c.ws_coupon_code, c.ws_offer_percent, c.ws_campaigns_name, sd, ed⟩
                  : CouponInfo) :: r.high_value_coupons
                else r.high_value_coupons)⟩
    | _, _ => .error .invalidDate

/-! Spec-side characterizations of the coupon buckets, written from the
spec's words ("end_date ≥ current_date → active, else expired";
"discount_percent > 20 → high value") for the refinement statement of C7. -/

def couponInfoOf (c : CouponRec) : Option CouponInfo :=
  match parseDate c.ws_start_date, parseDate c.ws_end_date with
  | some sd, some ed =>
    some ⟨c.ws_coupon_code, c.ws_offer_percent, c.ws_campaigns_name, sd, ed⟩
  | _, _ => none

def specInfos (cs : List CouponRec) : List CouponInfo := cs.filterMap couponInfoOf

def specActiveCoupons (current : Date) (cs : List CouponRec) : List CouponInfo :=
  (specInfos cs).filter (fun i => Date.le current i.endDate)

def specExpiredCoupons (current : Date) (cs : List CouponRec) : List CouponInfo :=
  (specInfos cs).filter (fun i => !Date.le current i.endDate)

def specHighValueCoupons (cs : List CouponRec) : List CouponInfo :=
  (specInfos cs).filter (fun i => decide (20 < i.discount))

/-! ### Inventory Classifier (`_analyze_inventory_health`, lines 242-270) -/

structure ProductInfo where
  id : String
  name : String
  stock : ℤ
  price : ℚ
deriving DecidableEq

def mkProductInfo (p : ProductRec) : ProductInfo :=
  ⟨p.ws_item_id, p.ws_item_name, p.ws_stock, p.ws_unit_price⟩

structure InvHealth where
  low_stock : List ProductInfo
  healthy_stock : List ProductInfo
  overstock : List ProductInfo
deriving DecidableEq

/-- `REORDER_THRESHOLD = 20`; the overstock threshold is the literal `50`. -/
def analyzeInventoryHealth : List ProductRec → InvHealth
  | [] => ⟨[], [], []⟩
  | p :: t =>
    if p.ws_stock ≤ 20 then
      ⟨mkProductInfo p :: (analyzeInventoryHealth t).low_stock,
       (analyzeInventoryHealth t).healthy_stock,
       (analyzeInventoryHealth t).overstock⟩
    else if 50 < p.ws_stock then
      ⟨(analyzeInventoryHealth t).low_stock,
       (analyzeInventoryHealth t).healthy_stock,
       mkProductInfo p :: (analyzeInventoryHealth t).overstock⟩
    else
      ⟨(analyzeInventoryHealth t).low_stock,
       mkProductInfo p :: (analyzeInventoryHealth t).healthy_stock,
       (analyzeInventoryHealth t).overstock⟩

/-! ## Theorems -/

/-- C8: the Inventory Classifier places each product in exactly one of
`low_stock` (stock ≤ 20, inclusive), `overstock` (stock > 50) and
`healthy_stock` (otherwise) — each bucket is exactly the filter of the
input by its (mutually exclusive, jointly exhaustive) predicate — and the
three buckets together have the same total size as the input. -/
theorem c8_inventory_partition (ps : List ProductRec) :
    (analyzeInventoryHealth ps).low_stock
        = (ps.map mkProductInfo).filter (fun i => decide (i.stock ≤ 20))
    ∧ (analyzeInventoryHealth ps).overstock
        = (ps.map mkProductInfo).filter
            (fun i => !decide (i.stock ≤ 20) && decide (50 < i.stock))
    ∧ (analyzeInventoryHealth ps).healthy_stock
        = (ps.map mkProductInfo).filter
            (fun i => !decide (i.stock ≤ 20) && !decide (50 < i.stock))
    ∧ (analyzeInventoryHealth ps).low_stock.length
        + (analyzeInventoryHealth ps).healthy_stock.length
        + (analyzeInventoryHealth ps).overstock.length = ps.length := by
  induction ps with
  | nil => simp [analyzeInventoryHealth]
  | cons p t ih =>
    obtain ⟨h1, h2, h3, h4⟩ := ih
    by_cases hlow : p.ws_stock ≤ 20
    · simp [analyzeInventoryHealth, hlow, mkProductInfo, h1, h2, h3,
        List.filter_cons] at h4 ⊢
      omega
    · by_cases hover : 50 < p.ws_stock
      · simp [analyzeInventoryHealth, hlow, hover, mkProductInfo, h1, h2, h3,
          List.filter_cons] at h4 ⊢
        omega
      · simp [analyzeInventoryHealth, hlow, hover, mkProductInfo, h1, h2, h3,
          List.filter_cons] at h4 ⊢
        omega

theorem getSummary_salesUpd (pid nm : String) (q : ℤ) (r : ℚ) (x : String)
    (m : List (String × Summary)) :
    (getSummary (salesUpd pid nm q r m) x).quantity
        = (getSummary m x).quantity + (if x = pid then q else 0)
    ∧ (getSummary (salesUpd pid nm q r m) x).revenue
        = (getSummary m x).revenue + (if x = pid then r else 0) := by
  induction m with
  | nil =>
    by_cases hx : x = pid
    · subst hx; simp [salesUpd, getSummary]
    · have hpx : ¬pid = x := fun h => hx h.symm
      simp [salesUpd, getSummary, hx, hpx]
  | cons e t ih =>
    obtain ⟨k, s⟩ := e
    by_cases hk : k = pid
    · subst hk
      by_cases hx : k = x
      · subst hx; simp [salesUpd, getSummary]
      · have hxk : ¬x = k := fun h => hx h.symm
        simp [salesUpd, getSummary, hx, hxk]
    · by_cases hx : k = x
      · have hxp : ¬x = pid := fun h => hk (hx.trans h)
        simp [salesUpd, getSummary, hk, hx, hxp]
      · simp [salesUpd, getSummary, hk, hx]
        exact ih

theorem getSummary_foldl (x : String) (os : List OrderRec) :
    ∀ m : List (String × Summary),
    (getSummary (os.foldl
        (fun m o => salesUpd o.ws_item_id o.ws_item_name o.ws_quantity
          ((o.ws_quantity : ℚ) * o.ws_unit_price) m) m) x).quantity
        = (getSummary m x).quantity
          + ((os.filter (fun o => decide (o.ws_item_id = x))).map
              (fun o => o.ws_quantity)).sum
    ∧ (getSummary (os.foldl
        (fun m o => salesUpd o.ws_item_id o.ws_item_name o.ws_quantity
          ((o.ws_quantity : ℚ) * o.ws_unit_price) m) m) x).revenue
        = (getSummary m x).revenue
          + ((os.filter (fun o => decide (o.ws_item_id = x))).map
              (fun o => (o.ws_quantity : ℚ) * o.ws_unit_price)).sum := by
  induction os with
  | nil => intro m; simp
  | cons o t ih =>
    intro m
    obtain ⟨ihq, ihr⟩ := ih (salesUpd o.ws_item_id o.ws_item_name o.ws_quantity
      ((o.ws_quantity : ℚ) * o.ws_unit_price) m)
    obtain ⟨hq, hr⟩ := getSummary_salesUpd o.ws_item_id o.ws_item_name o.ws_quantity
      ((o.ws_quantity : ℚ) * o.ws_unit_price) x m
    by_cases hid : o.ws_item_id = x
    · subst hid
      simp only [List.foldl_cons, List.filter_cons, List.map_cons, List.sum_cons,
        if_pos rfl, eq_self_iff_true, decide_True] at ihq ihr ⊢
      rw [ihq, ihr, hq, hr]
      simp only [if_true, List.map_cons, List.sum_cons]
      constructor <;> ring
    · have hxo : ¬x = o.ws_item_id := fun h => hid h.symm
      simp only [List.foldl_cons, List.filter_cons, hid, decide_eq_true_eq,
        if_neg hid] at ihq ihr ⊢
      rw [ihq, ihr, hq, hr]
      simp [hxo]

theorem productSales_spec (orders : List OrderRec) (pid : String) :
    (getSummary (productSales orders) pid).quantity
        = ((orders.filter (fun o => decide (o.ws_item_id = pid))).map
            (fun o => o.ws_quantity)).sum
    ∧ (getSummary (productSales orders) pid).revenue
        = ((orders.filter (fun o => decide (o.ws_item_id = pid))).map
            (fun o => (o.ws_quantity : ℚ) * o.ws_unit_price)).sum := by
  obtain ⟨hq, hr⟩ := getSummary_foldl pid orders []
  constructor
  · rw [productSales, hq]; simp [getSummary]
  · rw [productSales, hr]; simp [getSummary]

/-- C9: the Sales Aggregator's per-product quantity and revenue are the sums
of `quantity` and `quantity * unit_price` over exactly the order lines
carrying that product id. -/
theorem c9_sales_aggregation (orders : List OrderRec) (pid : String) :
    (getSummary (productSales orders) pid).quantity
        = ((orders.filter (fun o => decide (o.ws_item_id = pid))).map
            (fun o => o.ws_quantity)).sum
    ∧ (getSummary (productSales orders) pid).revenue
        = ((orders.filter (fun o => decide (o.ws_item_id = pid))).map
            (fun o => (o.ws_quantity : ℚ) * o.ws_unit_price)).sum :=
  productSales_spec orders pid

theorem productSales_revenue_nonneg (orders : List OrderRec)
    (h : ∀ o ∈ orders, 0 ≤ o.ws_quantity ∧ 0 ≤ o.ws_unit_price) (pid : String) :
    0 ≤ (getSummary (productSales orders) pid).revenue := by
  rw [(productSales_spec orders pid).2]
  apply List.sum_nonneg
  intro a ha
  obtain ⟨o, ho, rfl⟩ := List.mem_map.mp ha
  obtain ⟨h1, h2⟩ := h o (List.mem_filter.mp ho).1
  exact mul_nonneg (by exact_mod_cast h1) h2

/-- C1's counterexample: a zero unit price makes the Variant A margin term
and the Variant B profit-margin term raise a division fault (`none`), and a
product with no recorded sales makes the Variant A efficiency term raise —
nothing evaluates to a 0-valued fallback. -/
theorem c1_counterexample :
    calcInvestmentScore ⟨"A", "A", 10, 0, 0, 20⟩ (productSales [⟨"A", "A", 5, 10⟩]) = none
    ∧ productPotentialScore ⟨"A", "A", 10, 0, 0, 20⟩
        (productSales [⟨"A", "A", 5, 10⟩]) = none
    ∧ calcInvestmentScore ⟨"B", "B", 10, 5, 1, 20⟩ (productSales []) = none := by
  refine ⟨?_, ?_, ?_⟩
  · norm_num [calcInvestmentScore, productSales, salesUpd, getSummary]
  · norm_num [productPotentialScore, productSales, salesUpd, getSummary]
  · norm_num [calcInvestmentScore, productSales, salesUpd, getSummary]

/-- C1 (amended): the Investment Scorer's divisions are unguarded — the
Variant A score is a division fault exactly when `unit_price = 0` (margin)
or the product's aggregated quantity sold is 0 (`ideal_stock = 0`,
efficiency), and the Variant B score is a fault exactly when
`unit_price = 0` (its other two divisors are guarded by `max(_, 1)`). -/
theorem c1_amended_division_faults (p : ProductRec) (sales : List (String × Summary)) :
    (calcInvestmentScore p sales = none
      ↔ p.ws_unit_price = 0 ∨ (getSummary sales p.ws_item_id).quantity = 0)
    ∧ (productPotentialScore p sales = none ↔ p.ws_unit_price = 0) := by
  constructor
  · unfold calcInvestmentScore
    split_ifs with h1 h2
    · simp [h1]
    · have hq : (getSummary sales p.ws_item_id).quantity = 0 := by
        have h3 : ((getSummary sales p.ws_item_id).quantity : ℚ) = 0 := by
          rcases mul_eq_zero.mp h2 with h | h
          · rcases div_eq_zero_iff.mp h with h4 | h4
            · exact h4
            · norm_num at h4
          · norm_num at h
        exact_mod_cast h3
      simp [hq]
    · constructor
      · intro h; exact absurd h (by simp)
      · rintro (h | h)
        · exact absurd h h1
        · refine absurd ?_ h2
          simp [h]
  · unfold productPotentialScore
    split_ifs with h1
    · simp [h1]
    · simp [h1]

/-- C2's counterexample: with every stock, price, cost and quantity
non-negative but `cost_price > unit_price`, the Variant A margin term is
unbounded below and the total score falls outside [0, 100]. -/
theorem c2_counterexample :
    calcInvestmentScore ⟨"A", "A", 14, 1, 2, 20⟩ (productSales [⟨"A", "A", 30, 1⟩])
        = some (-45)
    ∧ ¬((0 : ℚ) ≤ -45 ∧ (-45 : ℚ) ≤ 100) := by
  refine ⟨?_, by norm_num⟩
  norm_num [calcInvestmentScore, productSales, salesUpd, getSummary, velocityScore,
    marginScore, efficiencyScore, revenueScore, min_def, max_def]

theorem velocityScore_bounds {q : ℤ} (hq : 0 < q) :
    0 ≤ velocityScore q ∧ velocityScore q ≤ 30 := by
  unfold velocityScore
  have hqQ : (0 : ℚ) < (q : ℚ) := by exact_mod_cast hq
  exact ⟨le_min (by positivity) (by norm_num), min_le_right _ _⟩

theorem marginScore_bounds {u c : ℚ} (hu : 0 < u) (hcu : c ≤ u) :
    0 ≤ marginScore u c ∧ marginScore u c ≤ 25 := by
  unfold marginScore
  refine ⟨le_min ?_ (by norm_num), min_le_right _ _⟩
  have h1 : 0 ≤ (u - c) / u := div_nonneg (by linarith) hu.le
  nlinarith

theorem efficiencyScore_bounds (s : ℚ) {i : ℚ} (hi : 0 < i) :
    0 ≤ efficiencyScore s i ∧ efficiencyScore s i ≤ 25 := by
  unfold efficiencyScore
  refine ⟨le_max_left _ _, max_le (by norm_num) ?_⟩
  have h1 : 0 ≤ |s - i| / i := div_nonneg (abs_nonneg _) hi.le
  linarith

theorem revenueScore_bounds {rev : ℚ} (total : ℚ) (hrev : 0 ≤ rev) :
    0 ≤ revenueScore rev total ∧ revenueScore rev total ≤ 20 := by
  unfold revenueScore
  refine ⟨le_min ?_ (by norm_num), min_le_right _ _⟩
  split_ifs with ht
  · have h1 : 0 ≤ rev / total := div_nonneg hrev ht.le
    nlinarith
  · norm_num

/-- C2 (amended): the Variant A total is NOT within [0, 100] for all
non-negative inputs (see the counterexample: `cost_price > unit_price`
drives it negative, and a zero unit price or zero quantity sold is a
division fault, not a score).  With the further hypotheses
`cost_price ≤ unit_price`, `0 < unit_price` and a positive quantity sold,
the total does lie in [0, 100]. -/
theorem c2_amended_score_bounds (p : ProductRec) (orders : List OrderRec)
    (hstock : 0 ≤ p.ws_stock)
    (hu : 0 < p.ws_unit_price)
    (hc : 0 ≤ p.ws_cost_price)
    (hcu : p.ws_cost_price ≤ p.ws_unit_price)
    (hq : 0 < (getSummary (productSales orders) p.ws_item_id).quantity)
    (hords : ∀ o ∈ orders, 0 ≤ o.ws_quantity ∧ 0 ≤ o.ws_unit_price) :
    ∃ t, calcInvestmentScore p (productSales orders) = some t
      ∧ 0 ≤ t ∧ t ≤ 100 := by
  have hrev := productSales_revenue_nonneg orders hords p.ws_item_id
  have hne : ¬p.ws_unit_price = 0 := ne_of_gt hu
  have hqQ : (0 : ℚ) < ((getSummary (productSales orders) p.ws_item_id).quantity : ℚ) := by
    exact_mod_cast hq
  have hideal : (0 : ℚ)
      < ((getSummary (productSales orders) p.ws_item_id).quantity : ℚ) / 30 * 14 := by
    positivity
  obtain ⟨hv0, hv1⟩ := velocityScore_bounds hq
  obtain ⟨hm0, hm1⟩ := marginScore_bounds hu hcu
  obtain ⟨he0, he1⟩ := efficiencyScore_bounds (p.ws_stock : ℚ) hideal
  obtain ⟨hr0, hr1⟩ := revenueScore_bounds
    (((productSales orders).map (fun e => e.2.revenue)).sum) hrev
  unfold calcInvestmentScore
  rw [if_neg hne, if_neg (ne_of_gt hideal)]
  exact ⟨_, rfl, by linarith, by linarith⟩

theorem c2_amended_score_bounds_witness :
    ∃ t, calcInvestmentScore ⟨"A", "A", 14, 10, 6, 20⟩
        (productSales [⟨"A", "A", 30, 10⟩]) = some t ∧ 0 ≤ t ∧ t ≤ 100 :=
  c2_amended_score_bounds ⟨"A", "A", 14, 10, 6, 20⟩ [⟨"A", "A", 30, 10⟩]
    (by decide) (by decide) (by decide) (by decide) (by decide) (by decide)

/-- C3's counterexample: the source computes the suggested quantity with
Python's `int()` (truncation toward zero), not round-to-nearest: for the
product `{stock: 0, min_stock: 0}` with 16 units sold, the raw value is
`16/30*7 = 3.7333…`; the code attaches `max(int(3.733…), 0) = 3`, while the
claim's `max(round(3.733…), 0)` is `4`. -/
theorem c3_counterexample :
    reorderForProduct ⟨"B", "B", 0, 1, 0, 0⟩ (productSales [⟨"B", "B", 16, 1⟩])
        = some (.urgent, 3)
    ∧ max (round ((16 : ℚ) / 30 * 7 + (1 / 2) * ((0 : ℤ) : ℚ) - ((0 : ℤ) : ℚ))) (0 : ℤ)
        = 4 := by
  constructor
  · norm_num [reorderForProduct, reorderQuantityRaw, avgDailySales, pyInt,
      productSales, salesUpd, getSummary, max_def]
  · norm_num [round_eq, max_def]

/-- C3 (amended): the Reorder Planner computes the suggested quantity as the
truncation toward zero (Python `int()`) of
`avg_daily_sales * 7 + 0.5 * min_stock - current_stock`, clamped below by
`min_stock` in the URGENT tier and by 0 in the SOON tier; the claim's
scenario `{stock: 5, min_stock: 20, quantity_sold: 60}` still yields
`max(int(19.0), 20) = 20` because there the raw value is an integer. -/
theorem c3_amended_trunc_formula (p : ProductRec) (sales : List (String × Summary))
    (u : Urgency) (n : ℤ) (h : reorderForProduct p sales = some (u, n)) :
    n = max (pyInt (avgDailySales sales p.ws_item_id * 7
          + (p.ws_min_stock : ℚ) * (1 / 2) - (p.ws_stock : ℚ)))
        (if u = .urgent then p.ws_min_stock else 0) := by
  unfold reorderForProduct at h
  split_ifs at h with h1 h2
  · simp only [Option.some.injEq, Prod.mk.injEq] at h
    obtain ⟨hu, hn⟩ := h
    subst hu; subst hn
    simp [reorderQuantityRaw]
  · simp only [Option.some.injEq, Prod.mk.injEq] at h
    obtain ⟨hu, hn⟩ := h
    subst hu; subst hn
    simp [reorderQuantityRaw]

set_option maxHeartbeats 1000000 in
theorem c3_amended_trunc_formula_witness :
    reorderForProduct ⟨"P1", "Widget", 5, 10, 6, 20⟩
        (productSales [⟨"P1", "Widget", 60, 10⟩]) = some (.urgent, 20)
    ∧ (20 : ℤ) = max (pyInt (avgDailySales (productSales [⟨"P1", "Widget", 60, 10⟩]) "P1" * 7
          + ((20 : ℤ) : ℚ) * (1 / 2) - ((5 : ℤ) : ℚ)))
        (if Urgency.urgent = .urgent then (20 : ℤ) else 0) := by
  have h : reorderForProduct ⟨"P1", "Widget", 5, 10, 6, 20⟩
      (productSales [⟨"P1", "Widget", 60, 10⟩]) = some (.urgent, 20) := by
    norm_num [reorderForProduct, reorderQuantityRaw, avgDailySales, pyInt,
      productSales, salesUpd, getSummary, max_def]
  exact ⟨h, c3_amended_trunc_formula ⟨"P1", "Widget", 5, 10, 6, 20⟩
    (productSales [⟨"P1", "Widget", 60, 10⟩]) .urgent 20 h⟩

/-- C6: every product classified URGENT (exactly when
`current_stock ≤ min_stock`) gets a suggested quantity of at least its
`min_stock`; a product is classified SOON exactly when
`min_stock < current_stock ≤ 1.5 * min_stock`, and its suggested quantity
is floored at 0. -/
theorem c6_reorder_urgency (p : ProductRec) (sales : List (String × Summary)) :
    (∀ n : ℤ, reorderForProduct p sales = some (.urgent, n) → p.ws_min_stock ≤ n)
    ∧ ((∃ n : ℤ, reorderForProduct p sales = some (.urgent, n))
        ↔ p.ws_stock ≤ p.ws_min_stock)
    ∧ ((∃ n : ℤ, reorderForProduct p sales = some (.soon, n))
        ↔ (p.ws_min_stock < p.ws_stock
            ∧ (p.ws_stock : ℚ) ≤ (p.ws_min_stock : ℚ) * (3 / 2)))
    ∧ (∀ n : ℤ, reorderForProduct p sales = some (.soon, n) → 0 ≤ n) := by
  unfold reorderForProduct
  split_ifs with h1 h2
  · refine ⟨?_, ?_, ?_, ?_⟩
    · intro n hn
      simp only [Option.some.injEq, Prod.mk.injEq] at hn
      rw [← hn.2]
      exact le_max_right _ _
    · simp [h1]
    · constructor
      · rintro ⟨n, hn⟩; simp at hn
      · rintro ⟨hlt, _⟩; omega
    · intro n hn; simp at hn
  · refine ⟨?_, ?_, ?_, ?_⟩
    · intro n hn; simp at hn
    · constructor
      · rintro ⟨n, hn⟩; simp at hn
      · intro hle; exact absurd hle h1
    · constructor
      · rintro ⟨n, _⟩; exact ⟨by omega, h2⟩
      · intro _; exact ⟨_, rfl⟩
    · intro n hn
      simp only [Option.some.injEq, Prod.mk.injEq] at hn
      rw [← hn.2]
      exact le_max_right _ _
  · refine ⟨?_, ?_, ?_, ?_⟩
    · intro n hn; simp at hn
    · constructor
      · rintro ⟨n, hn⟩; simp at hn
      · intro hle; exact absurd hle h1
    · constructor
      · rintro ⟨n, hn⟩; simp at hn
      · rintro ⟨_, hle⟩; exact absurd hle h2
    · intro n hn; simp at hn

theorem c6_reorder_urgency_witness :
    reorderForProduct ⟨"P2", "W", 5, 10, 6, 20⟩ (productSales []) = some (.urgent, 20)
    ∧ (20 : ℤ) ≤ 20
    ∧ reorderForProduct ⟨"P3", "W", 25, 10, 6, 20⟩ (productSales []) = some (.soon, 0)
    ∧ (0 : ℤ) ≤ 0 := by
  have h1 : reorderForProduct ⟨"P2", "W", 5, 10, 6, 20⟩ (productSales [])
      = some (.urgent, 20) := by
    norm_num [reorderForProduct, reorderQuantityRaw, avgDailySales, pyInt,
      productSales, getSummary, max_def]
  have h2 : reorderForProduct ⟨"P3", "W", 25, 10, 6, 20⟩ (productSales [])
      = some (.soon, 0) := by
    norm_num [reorderForProduct, reorderQuantityRaw, avgDailySales, pyInt,
      productSales, getSummary, max_def]
  exact ⟨h1, (c6_reorder_urgency ⟨"P2", "W", 5, 10, 6, 20⟩ (productSales [])).1 20 h1,
    h2, (c6_reorder_urgency ⟨"P3", "W", 25, 10, 6, 20⟩ (productSales [])).2.2.2 0 h2⟩

/-- C5: the Query Router checks the reorder keywords before the investment
keywords with case-insensitive substring membership, so any query containing
a reorder keyword — even one that also contains an investment keyword — is
dispatched to the reorder branch; in particular the claim's query
`What's my stock level?` is routed to the reorder branch, not the generic
responder. -/
theorem c5_router_precedence :
    (∀ q : String,
      reorderKeywords.any (fun k => strContains (pyLower q) k) = true
        → processQueryRoute q = .reorder)
    ∧ processQueryRoute ("What" ++ (Char.ofNat 39).toString ++ "s my stock level?")
        = .reorder := by
  constructor
  · intro q h
    unfold processQueryRoute
    rw [if_pos h]
  · decide

theorem c5_router_precedence_witness :
    reorderKeywords.any
        (fun k => strContains (pyLower "should i invest in more stock") k) = true
    ∧ processQueryRoute "should i invest in more stock" = .reorder := by
  have h : reorderKeywords.any
      (fun k => strContains (pyLower "should i invest in more stock") k) = true := by
    decide
  exact ⟨h, c5_router_precedence.1 "should i invest in more stock" h⟩

theorem startsWith_trans {a b c : List Char} (h1 : startsWith a b = true)
    (h2 : startsWith b c = true) : startsWith a c = true := by
  induction a generalizing b c with
  | nil => simp [startsWith]
  | cons x xs ih =>
    cases b with
    | nil => simp [startsWith] at h1
    | cons y ys =>
      cases c with
      | nil => simp [startsWith] at h2
      | cons z zs =>
        simp only [startsWith, Bool.and_eq_true, beq_iff_eq] at h1 h2 ⊢
        exact ⟨h1.1.trans h2.1, ih h1.2 h2.2⟩

theorem containsSub_mono {n₁ n₂ : List Char} (hpre : startsWith n₁ n₂ = true) :
    ∀ {h : List Char}, containsSub n₂ h = true → containsSub n₁ h = true := by
  intro h
  induction h with
  | nil =>
    intro hc
    simp only [containsSub, List.isEmpty_iff] at hc ⊢
    subst hc
    cases n₁ with
    | nil => rfl
    | cons x xs => simp [startsWith] at hpre
  | cons c t ih =>
    intro hc
    simp only [containsSub, Bool.or_eq_true] at hc ⊢
    rcases hc with hc | hc
    · exact Or.inl (startsWith_trans hpre hc)
    · exact Or.inr (ih hc)

/-- C10: the generic responder's investment branch is dead through
`process_query` — whenever dispatch falls through to the generic responder,
the lowered query does not contain `investment`, because any occurrence of
`investment` is an occurrence of the routing keyword `invest`, which would
have been dispatched earlier. -/
theorem c10_generic_no_investment (q : String)
    (h : processQueryRoute q = .generic) :
    strContains (pyLower q) "investment" = false := by
  cases hb : strContains (pyLower q) "investment" with
  | false => rfl
  | true =>
    exfalso
    have hinv : strContains (pyLower q) "invest" = true :=
      containsSub_mono (by decide) hb
    have hany : investmentKeywords.any (fun k => strContains (pyLower q) k) = true :=
      List.any_eq_true.mpr ⟨"invest", by simp [investmentKeywords], hinv⟩
    unfold processQueryRoute at h
    by_cases h1 : reorderKeywords.any (fun k => strContains (pyLower q) k) = true
    · rw [if_pos h1] at h
      exact Route.noConfusion h
    · rw [if_neg h1, if_pos hany] at h
      exact Route.noConfusion h

theorem c10_generic_no_investment_witness :
    processQueryRoute "hello" = .generic
    ∧ strContains (pyLower "hello") "investment" = false := by
  have h : processQueryRoute "hello" = .generic := by decide
  exact ⟨h, c10_generic_no_investment "hello" h⟩

/-- C4: the Coupon Classifier fails with the typed date error exactly when
some coupon's start or end date string is malformed, and under a malformed
date it never produces buckets at all — the coupon is neither silently
skipped nor silently placed in the active/expired partition. -/
theorem c4_malformed_date_error (current : Date) (cs : List CouponRec) :
    (analyzeCoupons current cs = .error .invalidDate
      ↔ ∃ c ∈ cs, parseDate c.ws_start_date = none ∨ parseDate c.ws_end_date = none)
    ∧ ∀ r : CouponAnalysis,
        (∃ c ∈ cs, parseDate c.ws_start_date = none ∨ parseDate c.ws_end_date = none)
          → analyzeCoupons current cs ≠ .ok r := by
  have key : analyzeCoupons current cs = .error .invalidDate
      ↔ ∃ c ∈ cs, parseDate c.ws_start_date = none ∨ parseDate c.ws_end_date = none := by
    induction cs with
    | nil => simp [analyzeCoupons]
    | cons c t ih =>
      cases hs : parseDate c.ws_start_date with
      | none =>
        cases he : parseDate c.ws_end_date with
        | none =>
          simp only [analyzeCoupons, hs, he]
          exact ⟨fun _ => ⟨c, List.mem_cons_self c t, Or.inl hs⟩, fun _ => trivial⟩
        | some ed =>
          simp only [analyzeCoupons, hs, he]
          exact ⟨fun _ => ⟨c, List.mem_cons_self c t, Or.inl hs⟩, fun _ => trivial⟩
      | some sd =>
        cases he : parseDate c.ws_end_date with
        | none =>
          simp only [analyzeCoupons, hs, he]
          exact ⟨fun _ => ⟨c, List.mem_cons_self c t, Or.inr he⟩, fun _ => trivial⟩
        | some ed =>
          cases hr : analyzeCoupons current t with
          | error e =>
            cases e
            simp only [analyzeCoupons, hs, he, hr]
            constructor
            · intro _
              obtain ⟨x, hx, hmal⟩ := ih.mp hr
              exact ⟨x, List.mem_cons_of_mem c hx, hmal⟩
            · intro _; trivial
          | ok r2 =>
            simp only [analyzeCoupons, hs, he, hr]
            constructor
            · intro hcontra
              exact Except.noConfusion hcontra
            · rintro ⟨x, hx, hmal⟩
              rcases List.mem_cons.mp hx with rfl | hx2
              · rcases hmal with hm | hm
                · rw [hs] at hm; exact Option.noConfusion hm
                · rw [he] at hm; exact Option.noConfusion hm
              · have : analyzeCoupons current t = .error .invalidDate :=
                  ih.mpr ⟨x, hx2, hmal⟩
                rw [hr] at this
                exact Except.noConfusion this
  refine ⟨key, ?_⟩
  intro r hmal hok
  have := key.mpr hmal
  rw [hok] at this
  exact Except.noConfusion this

theorem c4_malformed_date_error_witness :
    (∃ c ∈ [(⟨"BAD", "2024-13-01", "2024-01-09", 25, "camp"⟩ : CouponRec)],
      parseDate c.ws_start_date = none ∨ parseDate c.ws_end_date = none)
    ∧ analyzeCoupons ⟨2024, 1, 10⟩ [⟨"BAD", "2024-13-01", "2024-01-09", 25, "camp"⟩]
        ≠ .ok ⟨[], [], []⟩ := by
  have hmal : ∃ c ∈ [(⟨"BAD", "2024-13-01", "2024-01-09", 25, "camp"⟩ : CouponRec)],
      parseDate c.ws_start_date = none ∨ parseDate c.ws_end_date = none := by
    refine ⟨_, List.mem_cons_self _ _, Or.inl ?_⟩
    decide
  exact ⟨hmal,
    (c4_malformed_date_error ⟨2024, 1, 10⟩
      [⟨"BAD", "2024-13-01", "2024-01-09", 25, "camp"⟩]).2 ⟨[], [], []⟩ hmal⟩

theorem analyzeCoupons_ok_spec (current : Date) (cs : List CouponRec) :
    ∀ r : CouponAnalysis, analyzeCoupons current cs = .ok r →
      r.active_coupons = specActiveCoupons current cs
      ∧ r.expired_coupons = specExpiredCoupons current cs
      ∧ r.high_value_coupons = specHighValueCoupons cs
      ∧ r.active_coupons.length + r.expired_coupons.length = cs.length := by
  induction cs with
  | nil =>
    intro r h
    simp only [analyzeCoupons, Except.ok.injEq] at h
    subst h
    simp [specActiveCoupons, specExpiredCoupons, specHighValueCoupons, specInfos]
  | cons c t ih =>
    intro r h
    cases hs : parseDate c.ws_start_date with
    | none => simp [analyzeCoupons, hs] at h
    | some sd =>
      cases he : parseDate c.ws_end_date with
      | none => simp [analyzeCoupons, hs, he] at h
      | some ed =>
        cases hr : analyzeCoupons current t with
        | error e => simp [analyzeCoupons, hs, he, hr] at h
        | ok r2 =>
          obtain ⟨ih1, ih2, ih3, ih4⟩ := ih r2 hr
          simp only [analyzeCoupons, hs, he, hr, Except.ok.injEq] at h
          subst h
          have hinfo : specInfos (c :: t)
              = (⟨c.ws_coupon_code, c.ws_offer_percent, c.ws_campaigns_name, sd, ed⟩
                  : CouponInfo) :: specInfos t := by
            simp [specInfos, couponInfoOf, hs, he]
          cases hd : Date.le current ed with
          | true =>
            by_cases hv : (20 : ℚ) < c.ws_offer_percent
            · refine ⟨?_, ?_, ?_, ?_⟩ <;>
                simp [specActiveCoupons, specExpiredCoupons, specHighValueCoupons,
                  hinfo, List.filter_cons, hd, hv, ih1, ih2, ih3, ← ih4] <;> omega
            · refine ⟨?_, ?_, ?_, ?_⟩ <;>
                simp [specActiveCoupons, specExpiredCoupons, specHighValueCoupons,
                  hinfo, List.filter_cons, hd, hv, ih1, ih2, ih3, ← ih4] <;> omega
          | false =>
            by_cases hv : (20 : ℚ) < c.ws_offer_percent
            · refine ⟨?_, ?_, ?_, ?_⟩ <;>
                simp [specActiveCoupons, specExpiredCoupons, specHighValueCoupons,
                  hinfo, List.filter_cons, hd, hv, ih1, ih2, ih3, ← ih4] <;> omega
            · refine ⟨?_, ?_, ?_, ?_⟩ <;>
                simp [specActiveCoupons, specExpiredCoupons, specHighValueCoupons,
                  hinfo, List.filter_cons, hd, hv, ih1, ih2, ih3, ← ih4] <;> omega

/-- C7: when classification succeeds, `active_coupons` holds exactly the
coupons with `end_date ≥ current_date` and `expired_coupons` exactly the
others (a disjoint partition whose sizes add to the input size), while
`high_value_coupons` holds exactly the coupons with discount > 20 regardless
of status — hence every high-value coupon is also in the active or the
expired bucket. -/
theorem c7_coupon_partition (current : Date) (cs : List CouponRec) (r : CouponAnalysis)
    (h : analyzeCoupons current cs = .ok r) :
    r.active_coupons = specActiveCoupons current cs
    ∧ r.expired_coupons = specExpiredCoupons current cs
    ∧ r.high_value_coupons = specHighValueCoupons cs
    ∧ r.active_coupons.length + r.expired_coupons.length = cs.length
    ∧ ∀ i ∈ r.high_value_coupons, i ∈ r.active_coupons ∨ i ∈ r.expired_coupons := by
  obtain ⟨h1, h2, h3, h4⟩ := analyzeCoupons_ok_spec current cs r h
  refine ⟨h1, h2, h3, h4, ?_⟩
  intro i hi
  rw [h3, specHighValueCoupons] at hi
  have hmem : i ∈ specInfos cs := (List.mem_filter.mp hi).1
  rw [h1, h2, specActiveCoupons, specExpiredCoupons]
  cases hd : Date.le current i.endDate with
  | true => exact Or.inl (List.mem_filter.mpr ⟨hmem, hd⟩)
  | false => exact Or.inr (List.mem_filter.mpr ⟨hmem, by simp [hd]⟩)

theorem c7_coupon_partition_witness :
    analyzeCoupons ⟨2024, 1, 10⟩ [⟨"SAVE25", "2024-01-01", "2024-01-09", 25, "camp"⟩]
        = .ok ⟨[], [⟨"SAVE25", 25, "camp", ⟨2024, 1, 1⟩, ⟨2024, 1, 9⟩⟩],
            [⟨"SAVE25", 25, "camp", ⟨2024, 1, 1⟩, ⟨2024, 1, 9⟩⟩]⟩
    ∧ ∀ i ∈ [(⟨"SAVE25", 25, "camp", ⟨2024, 1, 1⟩, ⟨2024, 1, 9⟩⟩ : CouponInfo)],
        i ∈ ([] : List CouponInfo)
        ∨ i ∈ [(⟨"SAVE25", 25, "camp", ⟨2024, 1, 1⟩, ⟨2024, 1, 9⟩⟩ : CouponInfo)] := by
  have h : analyzeCoupons ⟨2024, 1, 10⟩
      [⟨"SAVE25", "2024-01-01", "2024-01-09", 25, "camp"⟩]
      = .ok ⟨[], [⟨"SAVE25", 25, "camp", ⟨2024, 1, 1⟩, ⟨2024, 1, 9⟩⟩],
          [⟨"SAVE25", 25, "camp", ⟨2024, 1, 1⟩, ⟨2024, 1, 9⟩⟩]⟩ := by
    decide
  exact ⟨h, (c7_coupon_partition ⟨2024, 1, 10⟩
    [⟨"SAVE25", "2024-01-01", "2024-01-09", 25, "camp"⟩] _ h).2.2.2.2⟩

end InventoryBot
